import Mathlib

/-!
Shallow embedding of the rapid.js core (src/core/request.js and the
CustomRoute class) together with proofs checking the natural-language
specification against it.

Strings are modelled as Lean `String` (a wrapper around `List Char`);
JavaScript's `String.prototype.replace` with a string pattern (first
occurrence only, replacement coerced to string — so `undefined` becomes
the literal text "undefined" — and run through ECMA-262 GetSubstitution
for the dollar patterns) and the regex scan over placeholder tokens are
embedded as executable functions on `List Char`.
-/

namespace Rapid

/-- Character class `[\w\.]` of the placeholder regex: ASCII word
characters and the (escaped, hence literal) dot. -/
def wordDotChar (c : Char) : Bool :=
  c.isAlpha || c.isDigit || c == '_' || c == '.'

/-- Character class `\s` of the placeholder regex, restricted to the
ASCII whitespace characters JavaScript recognises. -/
def jsSpaceChar (c : Char) : Bool :=
  c == ' ' || c == '\t' || c == '\n' || c == '\r' || c == '\x0b' || c == '\x0c'

/-- Try to match the regex `{\s*[\w\.]+\s*}` at the very start of the
character list.  On success, return the `[\w\.]+` core of the match
(which is exactly what the subsequent `.match(/[\w\.]+/)[0]` of the
source extracts from the token) and the characters following the match.
The regex is deterministic here because the three character classes
involved are pairwise disjoint, so greedy matching never backtracks. -/
def matchPlaceholder (l : List Char) : Option (List Char × List Char) :=
  match l with
  | [] => none
  | c :: r =>
    if c = '{' then
      let r1 := r.dropWhile jsSpaceChar
      let core := r1.takeWhile wordDotChar
      let r2 := (r1.dropWhile wordDotChar).dropWhile jsSpaceChar
      if core = [] then none
      else
        match r2 with
        | [] => none
        | c2 :: r3 => if c2 = '}' then some (core, r3) else none
    else none

/-- Global scan of the template for the regex `{\s*[\w\.]+\s*}` (the
`g`-flag `match` of the source): find the leftmost match, record its
extracted core, continue right after it; advance one character when no
match starts at the current position.  `match` returning `null` on a
template without placeholders corresponds to the empty result list. -/
def scanParamsGo : Nat → List Char → List (List Char)
  | 0, _ => []
  | _ + 1, [] => []
  | fuel + 1, c :: r =>
    match matchPlaceholder (c :: r) with
    | some (core, rest) => core :: scanParamsGo fuel rest
    | none => scanParamsGo fuel r

/-- The scan itself: a fuel of `l.length` suffices because every step of
`scanParamsGo` consumes at least one character. -/
def scanParams (l : List Char) : List (List Char) :=
  scanParamsGo l.length l

/-- `CustomRoute`'s `urlParams` getter: the ordered list of placeholder
cores extracted from the raw URL template. -/
def urlParams (s : String) : List String :=
  (scanParams s.data).map (fun cs => String.mk cs)

/-- ECMA-262 `GetSubstitution` for a string replacement with a string
pattern (no capture groups): scan the replacement text for the special
patterns — a doubled dollar gives a literal dollar, dollar-ampersand the
matched substring, dollar-backquote the part of the subject before the
match, dollar-quote the part after it — copying every other character
(including a dollar that starts no pattern) verbatim. -/
def jsSubstitution (matched before after : List Char) : List Char → List Char
  | [] => []
  | c :: r =>
    if c = '\x24' then
      match r with
      | [] => ['\x24']
      | d :: r' =>
        if d = '\x24' then '\x24' :: jsSubstitution matched before after r'
        else if d = '&' then matched ++ jsSubstitution matched before after r'
        else if d = '\x60' then before ++ jsSubstitution matched before after r'
        else if d = '\x27' then after ++ jsSubstitution matched before after r'
        else '\x24' :: d :: jsSubstitution matched before after r'
    else c :: jsSubstitution matched before after r

/-- Worker for `String.prototype.replace`: walk the subject keeping the
(reversed) prefix read so far; at the first position where the pattern
is a prefix of the remainder, emit prefix, substituted replacement and
remainder-after-match; when the subject is exhausted without a match,
the string is returned unchanged. -/
def jsReplaceListGo (pat repl : List Char) : List Char → List Char → List Char
  | pre, s =>
    if pat.isPrefixOf s then
      pre.reverse ++ jsSubstitution pat pre.reverse (s.drop pat.length) repl
        ++ s.drop pat.length
    else
      match s with
      | [] => pre.reverse
      | c :: r => jsReplaceListGo pat repl (c :: pre) r

/-- JavaScript `String.prototype.replace` with a plain string pattern:
replace the first occurrence of `pat` by the replacement text run
through `GetSubstitution`, leaving the string unchanged when the
pattern does not occur. -/
def jsReplaceList (s pat repl : List Char) : List Char :=
  jsReplaceListGo pat repl [] s

def jsReplace (s pat repl : String) : String :=
  String.mk (jsReplaceList s.data pat.data repl.data)

/-- JavaScript property lookup on an object literal, modelled as an
association list; an absent key resolves to `undefined`, i.e. `none`. -/
def jsLookup {α : Type} (m : List (String × α)) (k : String) : Option α :=
  match m with
  | [] => none
  | (k', v) :: rest => if k' = k then some v else jsLookup rest k

/-- Coercion JavaScript applies to the replacement argument of
`String.prototype.replace`: `undefined` prints as "undefined". -/
def jsValueToString (v : Option String) : String :=
  match v with
  | some s => s
  | none => "undefined"

/-- `CustomRoute.replaceURLParams`: when both the extracted placeholder
list and the route-params object are non-empty, fold over the extracted
placeholders, each step replacing the first occurrence of the literal
token `{param}` with `routeParams[param]` (coerced to a string);
otherwise return the raw template. -/
def replaceURLParams (rawURL : String) (routeParams : List (String × String)) : String :=
  let ps := urlParams rawURL
  if ps ≠ [] ∧ routeParams ≠ [] then
    ps.foldl
      (fun url param =>
        jsReplace url ("\x7b" ++ param ++ "\x7d") (jsValueToString (jsLookup routeParams param)))
      rawURL
  else rawURL

/-- A URL template presented by its shape: literal segments interleaved
with placeholder tokens — each pair contributes its literal part
followed by a brace-delimited placeholder name — closed by a trailing
literal. -/
def mkTemplate : List (String × String) → String → String
  | [], tailStr => tailStr
  | (a, n) :: rest, tailStr => a ++ "\x7b" ++ n ++ "\x7d" ++ mkTemplate rest tailStr

/-- The same shape with every placeholder resolved against a
route-params map: a present name contributes the mapped value, an
absent one the string "undefined". -/
def mkResolved (routeParams : List (String × String)) :
    List (String × String) → String → String
  | [], tailStr => tailStr
  | (a, n) :: rest, tailStr =>
      a ++ jsValueToString (jsLookup routeParams n) ++ mkResolved routeParams rest tailStr

/-- Modelled from the spec: the `RequestType` verb enum (its module is
not under src/); the closed set GET, POST, PUT, PATCH, HEAD, DELETE. -/
inductive RequestType where
  | GET
  | POST
  | PUT
  | PATCH
  | HEAD
  | DELETE
deriving DecidableEq, Repr

/-- A route definition as stored in the `customRoutes` configuration. -/
structure RouteDef where
  url : String
  type : RequestType
  name : String
deriving DecidableEq, Repr

/-- The defaults `Object.assign` starts from in `CustomRoute`'s
constructor: `url = ''`, `type = GET`, `name = ''`. -/
def defaultRouteDef : RouteDef :=
  { url := "", type := RequestType.GET, name := "" }

/-- A constructed `CustomRoute`: the (defaulted) route definition plus
the `routeParams` from the constructor's config argument. -/
structure CustomRoute where
  route : RouteDef
  routeParams : List (String × String)
deriving DecidableEq, Repr

/-- `new CustomRoute()` with no arguments: empty defaults throughout. -/
def CustomRoute.mkDefault : CustomRoute :=
  { route := defaultRouteDef, routeParams := [] }

def CustomRoute.rawURL (c : CustomRoute) : String :=
  c.route.url

/-- The `url` getter: the raw template with route params substituted. -/
def CustomRoute.url (c : CustomRoute) : String :=
  replaceURLParams c.rawURL c.routeParams

def CustomRoute.routeName (c : CustomRoute) : String :=
  c.route.name

/-- The `type` getter.  Modelled from the spec: the source indexes the
(missing) `RequestType` enum with the stored verb, which on the closed
verb set is the stored verb itself. -/
def CustomRoute.reqType (c : CustomRoute) : RequestType :=
  c.route.type

/-- JSON-like values of the request-data object: strings, numbers and
nested plain objects (modelled as ordered association lists). -/
inductive JVal where
  | str : String → JVal
  | num : Int → JVal
  | obj : List (String × JVal) → JVal
deriving Repr

def JVal.isObj : JVal → Bool
  | JVal.obj _ => true
  | _ => false

mutual
/-- lodash `defaultsDeep` at the value level, per lodash's documented
semantics: the destination value wins unless both sides are plain
objects, in which case their entries are merged recursively. -/
def jmergeVal : JVal → JVal → JVal
  | JVal.str s, _ => JVal.str s
  | JVal.num n, _ => JVal.num n
  | JVal.obj d, JVal.obj s =>
      JVal.obj (jmergeObj d s ++ s.filter (fun q => (jsLookup d q.1).isNone))
  | JVal.obj d, JVal.str _ => JVal.obj d
  | JVal.obj d, JVal.num _ => JVal.obj d

/-- Merge of the destination's own entries: each destination entry keeps
its key and merges its value with the source entry of the same key, when
one exists. -/
def jmergeObj : List (String × JVal) → List (String × JVal) → List (String × JVal)
  | [], _ => []
  | (k, v) :: rest, s =>
    (k, match jsLookup s k with
        | some sv => jmergeVal v sv
        | none => v) :: jmergeObj rest s
end

/-- lodash `defaultsDeep(dst, src)` on top-level objects: destination
entries (recursively merged) first, then the source entries whose keys
the destination lacks. -/
def defaultsDeep (dst src : List (String × JVal)) : List (String × JVal) :=
  jmergeObj dst src ++ src.filter (fun q => (jsLookup dst q.1).isNone)

/-- The per-builder mutable session: accumulated request data (the
top-level object holding `params`, `options` and any `withData` fields)
and the pending positional URL params. -/
structure Session where
  requestData : List (String × JVal)
  urlParams : List String
deriving Repr

/-- Modelled from the spec: the session's empty containers (the `Core`
base class is not under src/) — empty accumulated data with empty
`params` and `options` maps. -/
def emptyRequestData : List (String × JVal) :=
  [("params", JVal.obj []), ("options", JVal.obj [])]

/-- Modelled from the spec: `Core.resetRequestData` (not under src/),
clearing `data`, `params` and `options` to empty containers. -/
def resetRequestData (st : Session) : Session :=
  { st with requestData := emptyRequestData }

/-- Modelled from the spec: `Core.resetURLParams` (not under src/),
clearing the pending positional URL params. -/
def resetURLParams (st : Session) : Session :=
  { st with urlParams := [] }

/-- Modelled from the spec: a fresh session starts with the same empty
containers the reset operations restore. -/
def initSession : Session :=
  { requestData := emptyRequestData, urlParams := [] }

/-- `Request.withData`: `this.requestData = defaultsDeep(data, this.requestData)`. -/
def withData (data : List (String × JVal)) (st : Session) : Session :=
  { st with requestData := defaultsDeep data st.requestData }

/-- The recognised configuration options the embedded core reads. -/
structure Config where
  allowedRequestTypes : List String
  debug : Bool
  trailingSlash : Bool
  baseURL : String
  customRoutes : List (String × RouteDef)

/-- Modelled from the spec: the `isAllowedRequestType` collaborator
(src/utils/request.js is not under src/) — membership of the verb in the
configured allow-list. -/
def isAllowedRequestType (t : String) (cfg : Config) : Bool :=
  cfg.allowedRequestTypes.contains t

/-- JavaScript `toLowerCase`, on the ASCII verb strings this core
lowercases. -/
def jsToLower (s : String) : String :=
  String.mk (s.data.map Char.toLower)

/-- Modelled from the spec: `Core.makeUrl`, the URL-join collaborator
(not under src/); the spec delegates the join semantics, modelled here
as slash-joining the given parts. -/
def makeUrl (parts : List String) : String :=
  String.intercalate "/" parts

/-- Settlement of the injected transport's promise. -/
inductive TransportOutcome where
  | success : String → TransportOutcome
  | failure : String → TransportOutcome
deriving DecidableEq, Repr

/-- Externally observable calls the request lifecycle makes, in order:
the configured hooks, the transport (or debug fake), and the session
resets. -/
inductive Event where
  | beforeHookEv : String → String → Event
  | transportCallEv : String → String → Event
  | fakeCallEv : String → String → Event
  | resetDataEv : Event
  | resetURLEv : Event
  | afterHookEv : String → Event
  | errorHookEv : String → Event
deriving DecidableEq, Repr

/-- The injected external collaborators (§6 of the spec): transport verb
methods, the debug fake transport, the URL sanitizer and the argument
shaper.  All are black boxes to the core. -/
structure Collaborators where
  transport : String → String → List JVal → TransportOutcome
  fakeRequest : String → String → TransportOutcome
  sanitizeUrl : String → Bool → String
  parseRequestData : String → List (String × JVal) → List JVal

/-- Result of `Request.request`: a synchronous throw (with the events
that fired before it) or a returned promise carrying the trace, the
session as left behind, and the settled outcome. -/
inductive RequestResult where
  | thrown : List Event → String → RequestResult
  | returned : List Event → Session → TransportOutcome → RequestResult

/-- `Request.afterRequest(response)`: reset request data, reset URL
params, then fire the configured after hook. -/
def afterRequest (st : Session) (response : String) : Session × List Event :=
  (resetURLParams (resetRequestData st),
    [Event.resetDataEv, Event.resetURLEv, Event.afterHookEv response])

/-- `Request.onError(error)`: reset request data, reset URL params, then
fire the configured error hook. -/
def onError (st : Session) (err : String) : Session × List Event :=
  (resetURLParams (resetRequestData st),
    [Event.resetDataEv, Event.resetURLEv, Event.errorHookEv err])

/-- `Request.request(type, url)`: lowercase the verb, validate it
(throwing synchronously when disallowed), fire the before hook, then
either short-circuit to the debug fake or dispatch to the transport and
run the after/error path on settlement. -/
def request (cfg : Config) (co : Collaborators) (st : Session) (type url : String) :
    RequestResult :=
  let t := jsToLower type
  if isAllowedRequestType t cfg = false then
    RequestResult.thrown [] "This request type is not allowed."
  else
    let pre := [Event.beforeHookEv t url]
    if cfg.debug then
      RequestResult.returned (pre ++ [Event.fakeCallEv t url]) st (co.fakeRequest t url)
    else
      let su := co.sanitizeUrl url cfg.trailingSlash
      match co.transport t su (co.parseRequestData t st.requestData) with
      | TransportOutcome.success r =>
        let ae := afterRequest st r
        RequestResult.returned (pre ++ Event.transportCallEv t su :: ae.2) ae.1
          (TransportOutcome.success r)
      | TransportOutcome.failure e =>
        let oe := onError st e
        RequestResult.returned (pre ++ Event.transportCallEv t su :: oe.2) oe.1
          (TransportOutcome.failure e)

/-- `Request.buildRequest(type, urlParams)`.  The source's
`if (this.urlParams)` guard is always taken since a JavaScript array is
truthy, so the pending params are unconditionally prepended and cleared
before dispatch. -/
def buildRequest (cfg : Config) (co : Collaborators) (st : Session) (type : String)
    (urlParams : List String) : RequestResult :=
  let merged := st.urlParams ++ urlParams
  let st' := resetURLParams st
  request cfg co st' type (makeUrl merged)

/-- `Request.getCustomRoute(name, routeParams)`: a defined route yields
a `CustomRoute` over its definition and the given params; an unknown
name yields `new CustomRoute()` (all defaults, empty params). -/
def getCustomRoute (cfg : Config) (name : String)
    (routeParams : List (String × String)) : CustomRoute :=
  match jsLookup cfg.customRoutes name with
  | some rd => { route := rd, routeParams := routeParams }
  | none => CustomRoute.mkDefault

/-- `Request.generate(name, routeParams)`: resolution only — the
resolved URL joined onto the base URL, or `""` when the route resolved
to the empty URL. -/
def generate (cfg : Config) (name : String)
    (routeParams : List (String × String)) : String :=
  let u := (getCustomRoute cfg name routeParams).url
  if u ≠ "" then makeUrl [cfg.baseURL, u] else ""

/-- Number of request-data resets in a trace. -/
def countResetData : List Event → Nat
  | [] => 0
  | Event.resetDataEv :: r => countResetData r + 1
  | _ :: r => countResetData r

/-- Number of URL-params resets in a trace. -/
def countResetURL : List Event → Nat
  | [] => 0
  | Event.resetURLEv :: r => countResetURL r + 1
  | _ :: r => countResetURL r

/-- A concrete configuration with the default verb allow-list. -/
def cfgEx : Config :=
  { allowedRequestTypes := ["get", "post", "put", "patch", "head", "delete"],
    debug := false, trailingSlash := false, baseURL := "api.test",
    customRoutes := [] }

/-- The same configuration in debug mode. -/
def cfgDebugEx : Config :=
  { cfgEx with debug := true }

/-- A concrete custom-route definition. -/
def rdEx : RouteDef :=
  { url := "/users/\x7bid\x7d", type := RequestType.POST, name := "usersShow" }

/-- A concrete configuration carrying one custom route. -/
def cfgRoutesEx : Config :=
  { cfgEx with customRoutes := [("usersShow", rdEx)] }

/-- Concrete collaborators: an always-succeeding transport, a fake
transport, an identity sanitizer and a trivial argument shaper. -/
def coEx : Collaborators :=
  { transport := fun _ _ _ => TransportOutcome.success "ok",
    fakeRequest := fun _ _ => TransportOutcome.success "fake",
    sanitizeUrl := fun u _ => u,
    parseRequestData := fun _ d => [JVal.obj d] }

/-- A session holding one pending positional URL param. -/
def stPendingEx : Session :=
  { requestData := emptyRequestData, urlParams := ["7"] }

theorem length_dropWhile_le {α : Type} (p : α → Bool) (l : List α) :
    (l.dropWhile p).length ≤ l.length := by
  induction l with
  | nil => simp
  | cons c r ih =>
    rw [List.dropWhile_cons]
    split
    · exact Nat.le_succ_of_le ih
    · simp

theorem matchPlaceholder_length {l core rest : List Char}
    (h : matchPlaceholder l = some (core, rest)) : rest.length < l.length := by
  match l with
  | [] => simp [matchPlaceholder] at h
  | c :: r =>
    simp only [matchPlaceholder] at h
    split at h
    · split at h
      · exact absurd h (by simp)
      · split at h
        · exact absurd h (by simp)
        · rename_i r2 c2 r3 heq
          split at h
          · have hr3 : rest = r3 := by
              have := h
              simp at this
              exact this.2.symm
            have h1 : ((r.dropWhile jsSpaceChar).dropWhile wordDotChar).dropWhile jsSpaceChar
                = c2 :: r3 := heq
            have h2 : r3.length < r.length + 1 := by
              have hle : (((r.dropWhile jsSpaceChar).dropWhile wordDotChar).dropWhile
                  jsSpaceChar).length ≤ r.length := by
                calc (((r.dropWhile jsSpaceChar).dropWhile wordDotChar).dropWhile
                      jsSpaceChar).length
                    ≤ ((r.dropWhile jsSpaceChar).dropWhile wordDotChar).length :=
                      length_dropWhile_le _ _
                  _ ≤ (r.dropWhile jsSpaceChar).length := length_dropWhile_le _ _
                  _ ≤ r.length := length_dropWhile_le _ _
              rw [h1] at hle
              simp at hle
              omega
            simpa [hr3] using h2
          · exact absurd h (by simp)
    · exact absurd h (by simp)

theorem scanParamsGo_congr :
    ∀ (fuel fuel' : Nat) (l : List Char), l.length ≤ fuel → l.length ≤ fuel' →
      scanParamsGo fuel l = scanParamsGo fuel' l := by
  intro fuel
  induction fuel with
  | zero =>
    intro fuel' l h h'
    have hl : l = [] := List.eq_nil_of_length_eq_zero (Nat.le_zero.mp h)
    subst hl
    cases fuel' <;> rfl
  | succ fuel ih =>
    intro fuel' l h h'
    cases l with
    | nil => cases fuel' <;> rfl
    | cons c r =>
      cases fuel' with
      | zero => simp at h'
      | succ fuel2 =>
        simp only [scanParamsGo]
        cases hm : matchPlaceholder (c :: r) with
        | some pr =>
          obtain ⟨core, rest⟩ := pr
          have hr := matchPlaceholder_length hm
          simp only [List.length_cons] at h h' hr
          dsimp only
          rw [ih fuel2 rest (by omega) (by omega)]
        | none =>
          simp only [List.length_cons] at h h'
          dsimp only
          exact ih fuel2 r (by omega) (by omega)

theorem scanParams_nil : scanParams [] = [] :=
  rfl

theorem scanParams_cons_some {c : Char} {r core rest : List Char}
    (h : matchPlaceholder (c :: r) = some (core, rest)) :
    scanParams (c :: r) = core :: scanParams rest := by
  have hr := matchPlaceholder_length h
  simp only [List.length_cons] at hr
  show scanParamsGo (c :: r).length (c :: r) = core :: scanParamsGo rest.length rest
  simp only [List.length_cons, scanParamsGo, h]
  rw [scanParamsGo_congr r.length rest.length rest (by omega) (by omega)]

theorem scanParams_cons_none {c : Char} {r : List Char}
    (h : matchPlaceholder (c :: r) = none) :
    scanParams (c :: r) = scanParams r := by
  show scanParamsGo (c :: r).length (c :: r) = scanParamsGo r.length r
  simp only [List.length_cons, scanParamsGo, h]

theorem wordDot_not_jsSpace {c : Char} (h : jsSpaceChar c = true) : wordDotChar c = false := by
  simp only [jsSpaceChar, Bool.or_eq_true, beq_iff_eq] at h
  rcases h with ((((h | h) | h) | h) | h) | h <;> subst h <;> decide

theorem jsSpace_of_wordDot {c : Char} (h : wordDotChar c = true) : jsSpaceChar c = false := by
  cases hs : jsSpaceChar c
  · rfl
  · rw [wordDot_not_jsSpace hs] at h
    cases h

theorem takeWhile_append_cons {α : Type} (p : α → Bool) :
    ∀ (n : List α) (x : α) (rest : List α), (∀ c ∈ n, p c = true) → p x = false →
      (n ++ x :: rest).takeWhile p = n := by
  intro n
  induction n with
  | nil =>
    intro x rest _ hx
    simp [List.takeWhile_cons, hx]
  | cons c n' ih =>
    intro x rest hn hx
    have hc : p c = true := hn c (by simp)
    have ih' := ih x rest (fun d hd => hn d (by simp [hd])) hx
    simp [List.cons_append, List.takeWhile_cons, hc, ih']

theorem dropWhile_append_cons {α : Type} (p : α → Bool) :
    ∀ (n : List α) (x : α) (rest : List α), (∀ c ∈ n, p c = true) → p x = false →
      (n ++ x :: rest).dropWhile p = x :: rest := by
  intro n
  induction n with
  | nil =>
    intro x rest _ hx
    simp [List.dropWhile_cons, hx]
  | cons c n' ih =>
    intro x rest hn hx
    have hc : p c = true := hn c (by simp)
    simp only [List.cons_append, List.dropWhile_cons, hc]
    exact ih x rest (fun d hd => hn d (by simp [hd])) hx

theorem matchPlaceholder_token {n b : List Char} (hne : n ≠ [])
    (hw : ∀ c ∈ n, wordDotChar c = true) :
    matchPlaceholder ('{' :: (n ++ '}' :: b)) = some (n, b) := by
  have h1 : (n ++ '}' :: b).dropWhile jsSpaceChar = n ++ '}' :: b := by
    cases n with
    | nil => simp at hne
    | cons c0 n' =>
      have hc : jsSpaceChar c0 = false := jsSpace_of_wordDot (hw c0 (by simp))
      simp [List.dropWhile_cons, hc]
  have h2 : (n ++ '}' :: b).takeWhile wordDotChar = n :=
    takeWhile_append_cons wordDotChar n '}' b hw (by decide)
  have h3 : (n ++ '}' :: b).dropWhile wordDotChar = '}' :: b :=
    dropWhile_append_cons wordDotChar n '}' b hw (by decide)
  have h4 : ('}' :: b).dropWhile jsSpaceChar = '}' :: b := by
    simp [List.dropWhile_cons, show jsSpaceChar '}' = false from by decide]
  simp [matchPlaceholder, h1, h2, h3, h4, hne]

theorem matchPlaceholder_cons_none {c : Char} {r : List Char} (h : c ≠ '{') :
    matchPlaceholder (c :: r) = none := by
  simp [matchPlaceholder, h]

theorem scanParams_of_no_brace : ∀ l : List Char, (∀ c ∈ l, c ≠ '{') → scanParams l = [] := by
  intro l
  induction l with
  | nil => intro _; exact scanParams_nil
  | cons c r ih =>
    intro h
    rw [scanParams_cons_none (matchPlaceholder_cons_none (h c (by simp)))]
    exact ih (fun d hd => h d (by simp [hd]))

theorem scanParams_append_of_no_brace :
    ∀ (a l : List Char), (∀ c ∈ a, c ≠ '{') → scanParams (a ++ l) = scanParams l := by
  intro a
  induction a with
  | nil => intro l _; rfl
  | cons c a' ih =>
    intro l h
    rw [List.cons_append,
      scanParams_cons_none (matchPlaceholder_cons_none (h c (by simp)))]
    exact ih l (fun d hd => h d (by simp [hd]))

theorem isPrefixOf_append_self : ∀ (xs ys : List Char), xs.isPrefixOf (xs ++ ys) = true := by
  intro xs
  induction xs with
  | nil => intro ys; simp [List.isPrefixOf]
  | cons c r ih => intro ys; simp [List.isPrefixOf, ih]

theorem isPrefixOf_cons_false {c : Char} {p r : List Char} (h : c ≠ '{') :
    (('{' :: p).isPrefixOf (c :: r)) = false := by
  have hb : (('{' : Char) == c) = false := by
    simp [Ne.symm h]
  simp [List.isPrefixOf, hb]

theorem jsSubstitution_cons_no_dollar {matched before after : List Char} {c : Char}
    {r : List Char} (hc : c ≠ '\x24') :
    jsSubstitution matched before after (c :: r)
      = c :: jsSubstitution matched before after r := by
  cases r with
  | nil => rw [jsSubstitution.eq_2, if_neg hc]
  | cons d r' => rw [jsSubstitution.eq_3, if_neg hc]

theorem jsSubstitution_no_dollar {matched before after : List Char} :
    ∀ repl : List Char, (∀ c ∈ repl, c ≠ '\x24') →
      jsSubstitution matched before after repl = repl := by
  intro repl
  induction repl with
  | nil => intro _; rfl
  | cons c r ih =>
    intro h
    have hc : c ≠ '\x24' := h c (by simp)
    rw [jsSubstitution_cons_no_dollar hc, ih (fun d hd => h d (by simp [hd]))]

theorem jsReplaceListGo_pos {pat repl : List Char} (pre s : List Char)
    (h : pat.isPrefixOf s = true) :
    jsReplaceListGo pat repl pre s
      = pre.reverse ++ jsSubstitution pat pre.reverse (s.drop pat.length) repl
          ++ s.drop pat.length := by
  unfold jsReplaceListGo
  rw [if_pos h]

theorem jsReplaceListGo_neg_cons {pat repl : List Char} (pre : List Char) (c : Char)
    (r : List Char) (h : pat.isPrefixOf (c :: r) = false) :
    jsReplaceListGo pat repl pre (c :: r) = jsReplaceListGo pat repl (c :: pre) r := by
  conv_lhs => unfold jsReplaceListGo
  rw [if_neg (by simp [h])]

theorem jsReplaceListGo_split {p tail repl : List Char} :
    ∀ (a pre : List Char), (∀ c ∈ a, c ≠ '{') →
      jsReplaceListGo ('{' :: p) repl pre (a ++ ('{' :: p) ++ tail)
        = pre.reverse ++ a
            ++ jsSubstitution ('{' :: p) (pre.reverse ++ a) tail repl ++ tail := by
  intro a
  induction a with
  | nil =>
    intro pre _
    simp only [List.nil_append]
    rw [jsReplaceListGo_pos pre _ (isPrefixOf_append_self _ _)]
    rw [List.drop_left]
    simp
  | cons c a' ih =>
    intro pre h
    have hc : c ≠ '{' := h c (by simp)
    simp only [List.cons_append]
    rw [jsReplaceListGo_neg_cons pre c _ (isPrefixOf_cons_false hc)]
    have := ih (c :: pre) (fun d hd => h d (by simp [hd]))
    simp only [List.cons_append] at this
    rw [this]
    simp [List.append_assoc]

theorem jsReplaceList_split {p tail repl : List Char} (a : List Char)
    (ha : ∀ c ∈ a, c ≠ '{') :
    jsReplaceList (a ++ ('{' :: p) ++ tail) ('{' :: p) repl
      = a ++ jsSubstitution ('{' :: p) a tail repl ++ tail := by
  show jsReplaceListGo ('{' :: p) repl [] (a ++ ('{' :: p) ++ tail) = _
  rw [jsReplaceListGo_split a [] ha]
  simp

/-- The character data underlying a template assembled around one
placeholder token. -/
theorem template_data (a b n : String) :
    (a ++ "\x7b" ++ n ++ "\x7d" ++ b).data
      = a.data ++ ('{' :: (n.data ++ '}' :: b.data)) := by
  simp only [String.data_append]
  simp [List.append_assoc]

/-- Extraction on a template consisting of a brace-free part, one
well-formed placeholder token, and an arbitrary continuation: the
placeholder core is reported first, the continuation scanned after it. -/
theorem urlParams_comp (a b n : String) (hn : n.data ≠ [])
    (hw : ∀ c ∈ n.data, wordDotChar c = true)
    (ha : ∀ c ∈ a.data, c ≠ '{') :
    urlParams (a ++ "\x7b" ++ n ++ "\x7d" ++ b) = n :: urlParams b := by
  show (scanParams (a ++ "\x7b" ++ n ++ "\x7d" ++ b).data).map (fun cs => String.mk cs)
    = n :: urlParams b
  rw [template_data, scanParams_append_of_no_brace a.data _ ha,
    scanParams_cons_some (matchPlaceholder_token hn hw)]
  rfl

/-- Replacing one placeholder token after a brace-free prefix: the
pattern first occurs at the token, and a dollar-free replacement value
is inserted verbatim there. -/
theorem jsReplace_token (preS n v postS : String)
    (hpre : ∀ c ∈ preS.data, c ≠ '{')
    (hv : ∀ c ∈ v.data, c ≠ '\x24') :
    jsReplace (preS ++ "\x7b" ++ n ++ "\x7d" ++ postS) ("\x7b" ++ n ++ "\x7d") v
      = preS ++ v ++ postS := by
  apply String.ext
  show jsReplaceList (preS ++ "\x7b" ++ n ++ "\x7d" ++ postS).data
      ("\x7b" ++ n ++ "\x7d").data v.data = _
  have hpat : ("\x7b" ++ n ++ "\x7d").data = '{' :: (n.data ++ ['}']) := by
    simp [String.data_append]
  have htpl : (preS ++ "\x7b" ++ n ++ "\x7d" ++ postS).data
      = preS.data ++ ('{' :: (n.data ++ ['}'])) ++ postS.data := by
    rw [template_data]
    simp [List.append_assoc]
  rw [htpl, hpat, jsReplaceList_split preS.data hpre,
    jsSubstitution_no_dollar v.data hv]
  simp [String.data_append, List.append_assoc]

/-- The empty string is a left identity of append. -/
theorem strAppend_empty_left (s : String) : "" ++ s = s := by
  apply String.ext
  simp [String.data_append]

/-- Extraction on a template of the general shape: one placeholder core
per token, in template order. -/
theorem urlParams_mkTemplate :
    ∀ (L : List (String × String)) (tailStr : String),
      (∀ p ∈ L, (∀ c ∈ p.1.data, c ≠ '{') ∧ p.2.data ≠ [] ∧
        (∀ c ∈ p.2.data, wordDotChar c = true)) →
      (∀ c ∈ tailStr.data, c ≠ '{') →
      urlParams (mkTemplate L tailStr) = L.map (fun p => p.2) := by
  intro L
  induction L with
  | nil =>
    intro tailStr _ htail
    show (scanParams tailStr.data).map (fun cs => String.mk cs) = []
    rw [scanParams_of_no_brace tailStr.data htail]
    rfl
  | cons p rest ih =>
    intro tailStr hL htail
    obtain ⟨a, n⟩ := p
    have hp := hL (a, n) (by simp)
    show urlParams (a ++ "\x7b" ++ n ++ "\x7d" ++ mkTemplate rest tailStr) = _
    rw [urlParams_comp a _ n hp.2.1 hp.2.2 hp.1,
      ih tailStr (fun q hq => hL q (by simp [hq])) htail]
    rfl

/-- Folding the per-placeholder replacement steps over a template of
the general shape, below an already-resolved brace-free prefix: each
step inserts the (dollar- and brace-free) value of its placeholder at
the placeholder's position. -/
theorem foldl_replace_mkTemplate (M : List (String × String)) :
    ∀ (L : List (String × String)) (tailStr preS : String),
      (∀ p ∈ L, ∀ c ∈ p.1.data, c ≠ '{') →
      (∀ c ∈ tailStr.data, c ≠ '{') →
      (∀ p ∈ L, ∀ c ∈ (jsValueToString (jsLookup M p.2)).data, c ≠ '{' ∧ c ≠ '\x24') →
      (∀ c ∈ preS.data, c ≠ '{') →
      (L.map (fun p => p.2)).foldl
        (fun url param =>
          jsReplace url ("\x7b" ++ param ++ "\x7d") (jsValueToString (jsLookup M param)))
        (preS ++ mkTemplate L tailStr)
      = preS ++ mkResolved M L tailStr := by
  intro L
  induction L with
  | nil => intro tailStr preS _ _ _ _; rfl
  | cons p rest ih =>
    intro tailStr preS hL htail hvals hpre
    obtain ⟨a, n⟩ := p
    have hv := hvals (a, n) (by simp)
    have ha : ∀ c ∈ a.data, c ≠ '{' := hL (a, n) (by simp)
    have hpreA : ∀ c ∈ (preS ++ a).data, c ≠ '{' := by
      intro c hc
      rw [String.data_append] at hc
      rcases List.mem_append.mp hc with hc | hc
      · exact hpre c hc
      · exact ha c hc
    have hstep :
        jsReplace (preS ++ mkTemplate ((a, n) :: rest) tailStr)
            ("\x7b" ++ n ++ "\x7d") (jsValueToString (jsLookup M n))
          = preS ++ a ++ jsValueToString (jsLookup M n) ++ mkTemplate rest tailStr := by
      have hshape : preS ++ mkTemplate ((a, n) :: rest) tailStr
          = (preS ++ a) ++ "\x7b" ++ n ++ "\x7d" ++ mkTemplate rest tailStr := by
        show preS ++ (a ++ "\x7b" ++ n ++ "\x7d" ++ mkTemplate rest tailStr) = _
        apply String.ext
        simp [String.data_append, List.append_assoc]
      rw [hshape, jsReplace_token (preS ++ a) n (jsValueToString (jsLookup M n))
        (mkTemplate rest tailStr) hpreA (fun c hc => (hv c hc).2)]
    show (rest.map (fun p => p.2)).foldl _
        (jsReplace (preS ++ mkTemplate ((a, n) :: rest) tailStr)
          ("\x7b" ++ n ++ "\x7d") (jsValueToString (jsLookup M n)))
      = _
    rw [hstep]
    have ihh := ih tailStr (preS ++ a ++ jsValueToString (jsLookup M n))
      (fun q hq => hL q (by simp [hq])) htail
      (fun q hq => hvals q (by simp [hq]))
      (by
        intro c hc
        simp only [String.data_append] at hc
        rcases List.mem_append.mp hc with hc2 | hc2
        · rcases List.mem_append.mp hc2 with hc3 | hc3
          · exact hpre c hc3
          · exact ha c hc3
        · exact (hv c hc2).1)
    rw [ihh]
    apply String.ext
    simp [mkResolved, String.data_append, List.append_assoc]

theorem jsLookup_jmergeObj (d s : List (String × JVal)) (k : String) :
    jsLookup (jmergeObj d s) k =
      match jsLookup d k with
      | some dv => some (match jsLookup s k with
                         | some sv => jmergeVal dv sv
                         | none => dv)
      | none => none := by
  induction d with
  | nil => rfl
  | cons hd rest ih =>
    obtain ⟨k', v⟩ := hd
    by_cases h : k' = k
    · subst h
      simp [jmergeObj, jsLookup]
    · simp [jmergeObj, jsLookup, h, ih]

theorem jsLookup_filter_isNone (d s : List (String × JVal)) (k : String)
    (h : jsLookup d k = none) :
    jsLookup (s.filter (fun q => (jsLookup d q.1).isNone)) k = jsLookup s k := by
  induction s with
  | nil => rfl
  | cons hd rest ih =>
    obtain ⟨k', v⟩ := hd
    by_cases hk : k' = k
    · subst hk
      simp [List.filter_cons, jsLookup, h]
    · by_cases hp : (jsLookup d k').isNone
      · simp [List.filter_cons, hp, jsLookup, hk, ih]
      · simp [List.filter_cons, hp, jsLookup, hk, ih]

theorem jsLookup_append {α : Type} (x y : List (String × α)) (k : String) :
    jsLookup (x ++ y) k =
      match jsLookup x k with
      | some v => some v
      | none => jsLookup y k := by
  induction x with
  | nil => rfl
  | cons hd rest ih =>
    obtain ⟨k', v⟩ := hd
    by_cases h : k' = k <;> simp [jsLookup, h, ih]

theorem jsLookup_defaultsDeep (d s : List (String × JVal)) (k : String) :
    jsLookup (defaultsDeep d s) k =
      match jsLookup d k, jsLookup s k with
      | some dv, some sv => some (jmergeVal dv sv)
      | some dv, none => some dv
      | none, r => r := by
  unfold defaultsDeep
  rw [jsLookup_append, jsLookup_jmergeObj]
  cases hd : jsLookup d k with
  | some dv => cases hs : jsLookup s k <;> simp
  | none =>
    dsimp only
    rw [jsLookup_filter_isNone d s k hd]

/-- A request that returns (rather than throws) leaves behind either
the untouched session (debug path) or the fully reset session. -/
theorem request_returned_session (cfg : Config) (co : Collaborators) (st : Session)
    (type url : String) (evs : List Event) (st1 : Session) (out : TransportOutcome)
    (h : request cfg co st type url = RequestResult.returned evs st1 out) :
    st1 = st ∨ st1 = resetURLParams (resetRequestData st) := by
  simp only [request] at h
  split at h
  · cases h
  · split at h
    · injection h with h1 h2 h3
      exact Or.inl h2.symm
    · split at h
      · injection h with h1 h2 h3
        exact Or.inr (by rw [← h2]; rfl)
      · injection h with h1 h2 h3
        exact Or.inr (by rw [← h2]; rfl)

/-- C1, counterexample: resolving the template "/a/{id}" against the
non-empty route-params map containing only the key z does not leave the
unmatched placeholder literal, contrary to the claim — the output is
"/a/undefined" and the substring "{id}" no longer occurs in it. -/
theorem c1_counterexample :
    replaceURLParams "/a/\x7bid\x7d" [("z", "1")] = "/a/undefined" ∧
    ¬ ("\x7bid\x7d".data <:+: (replaceURLParams "/a/\x7bid\x7d" [("z", "1")]).data) := by
  constructor
  · decide
  · decide

/-- C1, amended: for every URL template of the general shape —
brace-free literal segments interleaved with any number of well-formed
placeholders, closed by a brace-free tail — and every non-empty
route-params map whose relevant values are brace- and dollar-free,
resolution replaces every placeholder occurrence in template order: one
whose name is a key of the map by the map's value, and one whose name
is absent by the string "undefined" (JavaScript's coercion of the
missing property, itself brace- and dollar-free) rather than being left
literal; no error is raised for the missing keys. -/
theorem c1_placeholder_substitution (L : List (String × String)) (tailStr : String)
    (M : List (String × String)) (hM : M ≠ [])
    (hsegs : ∀ p ∈ L, (∀ c ∈ p.1.data, c ≠ '{') ∧ p.2.data ≠ [] ∧
      (∀ c ∈ p.2.data, wordDotChar c = true))
    (htail : ∀ c ∈ tailStr.data, c ≠ '{')
    (hvals : ∀ p ∈ L, ∀ c ∈ (jsValueToString (jsLookup M p.2)).data,
      c ≠ '{' ∧ c ≠ '\x24') :
    replaceURLParams (mkTemplate L tailStr) M = mkResolved M L tailStr := by
  cases L with
  | nil =>
    have hps : urlParams (mkTemplate [] tailStr) = [] :=
      urlParams_mkTemplate [] tailStr (by simp) htail
    show replaceURLParams (mkTemplate [] tailStr) M = mkTemplate [] tailStr
    simp [replaceURLParams, hps]
  | cons p rest =>
    have hps := urlParams_mkTemplate (p :: rest) tailStr hsegs htail
    simp only [replaceURLParams]
    rw [hps, if_pos ⟨by simp, hM⟩]
    have hfold := foldl_replace_mkTemplate M (p :: rest) tailStr ""
      (fun q hq => (hsegs q hq).1) htail hvals (by simp)
    rw [strAppend_empty_left, strAppend_empty_left] at hfold
    exact hfold

/-- C1, witness: the amended claim at a concrete two-placeholder
template whose first placeholder name is a key of the map and whose
second is absent — the resolved URL carries the mapped value and the
text "undefined" respectively. -/
theorem c1_witness :
    replaceURLParams
        (mkTemplate [("/users/", "id"), ("/posts/", "postId")] "") [("id", "42")]
      = mkResolved [("id", "42")] [("/users/", "id"), ("/posts/", "postId")] "" ∧
    mkResolved [("id", "42")] [("/users/", "id"), ("/posts/", "postId")] ""
      = "/users/42/posts/undefined" :=
  ⟨c1_placeholder_substitution [("/users/", "id"), ("/posts/", "postId")] ""
      [("id", "42")] (by decide) (by decide) (by decide) (by decide),
   by decide⟩

/-- C2, counterexample: `withData({a:1})` followed by `withData({a:2})`
leaves the accumulated value of a equal to 2, not 1 — the incoming
call's value wins the collision, because the source passes the incoming
data as lodash `defaultsDeep`'s destination. -/
theorem c2_counterexample :
    jsLookup (withData [("a", JVal.num 2)]
        (withData [("a", JVal.num 1)] initSession)).requestData "a"
      = some (JVal.num 2) ∧ JVal.num 2 ≠ JVal.num 1 := by
  constructor
  · rfl
  · intro h
    injection h with h2
    exact absurd h2 (by decide)

/-- C2, amended: successive `withData` calls deep-merge with the
incoming (later) values taking precedence on overlapping keys — for any
key the second call maps to a non-object value, the accumulated data
maps it to exactly that value. -/
theorem c2_incoming_precedence (st : Session) (d1 d2 : List (String × JVal))
    (k : String) (v : JVal) (hv : jsLookup d2 k = some v) (hno : v.isObj = false) :
    jsLookup (withData d2 (withData d1 st)).requestData k = some v := by
  show jsLookup (defaultsDeep d2 (withData d1 st).requestData) k = some v
  rw [jsLookup_defaultsDeep, hv]
  cases hs : jsLookup (withData d1 st).requestData k with
  | some sv =>
    dsimp only
    cases v with
    | str s => rfl
    | num n => rfl
    | obj o => simp [JVal.isObj] at hno
  | none => rfl

/-- C2, witness: the amended claim at a concrete instance. -/
theorem c2_witness :
    jsLookup (withData [("b", JVal.num 7)]
        (withData [("b", JVal.num 5)] initSession)).requestData "b"
      = some (JVal.num 7) :=
  c2_incoming_precedence initSession [("b", JVal.num 5)] [("b", JVal.num 7)] "b"
    (JVal.num 7) rfl rfl

/-- C3: a verb whose lowercased form is outside the configured
allow-list makes `request` throw synchronously — the result is a thrown
error, not a returned promise, and its empty event trace shows that
neither the before hook nor any transport or fake call fired. -/
theorem c3_invalid_type_throws (cfg : Config) (co : Collaborators) (st : Session)
    (type url : String) (h : isAllowedRequestType (jsToLower type) cfg = false) :
    request cfg co st type url
      = RequestResult.thrown [] "This request type is not allowed." := by
  simp [request, h]

/-- C3, witness: a forged verb outside the allow-list. -/
theorem c3_witness :
    request cfgEx coEx initSession "brew" "/x"
      = RequestResult.thrown [] "This request type is not allowed." :=
  c3_invalid_type_throws cfgEx coEx initSession "brew" "/x" (by decide)

/-- C4: for every request that completes — whichever way the transport
settles — the session is left with the empty data/params/options
containers and cleared pending urlParams, and the trace shows exactly
one request-data reset and one URL-params reset. -/
theorem c4_reset_on_completion (cfg : Config) (co : Collaborators) (st : Session)
    (type url : String)
    (hv : isAllowedRequestType (jsToLower type) cfg = true)
    (hd : cfg.debug = false) :
    match request cfg co st type url with
    | RequestResult.returned evs st' _ =>
        st'.requestData = emptyRequestData ∧ st'.urlParams = [] ∧
        countResetData evs = 1 ∧ countResetURL evs = 1
    | RequestResult.thrown _ _ => False := by
  simp only [request, hv, hd]
  cases htr : co.transport (jsToLower type) (co.sanitizeUrl url cfg.trailingSlash)
      (co.parseRequestData (jsToLower type) st.requestData) with
  | success r => exact ⟨rfl, rfl, rfl, rfl⟩
  | failure e => exact ⟨rfl, rfl, rfl, rfl⟩

/-- C4, witness: a concrete completed request. -/
theorem c4_witness :
    (match request cfgEx coEx stPendingEx "GET" "/u" with
      | RequestResult.returned evs st' _ =>
          st'.requestData = emptyRequestData ∧ st'.urlParams = [] ∧
          countResetData evs = 1 ∧ countResetURL evs = 1
      | RequestResult.thrown _ _ => False) :=
  c4_reset_on_completion cfgEx coEx stPendingEx "GET" "/u" (by decide) rfl

/-- C5: for every name absent from the customRoutes table,
`getCustomRoute` raises no error and returns the resolved empty default
route: url "", type GET, name "". -/
theorem c5_missing_route_defaults (cfg : Config) (name : String)
    (params : List (String × String))
    (h : jsLookup cfg.customRoutes name = none) :
    (getCustomRoute cfg name params).url = "" ∧
    (getCustomRoute cfg name params).reqType = RequestType.GET ∧
    (getCustomRoute cfg name params).routeName = "" := by
  unfold getCustomRoute
  rw [h]
  exact ⟨rfl, rfl, rfl⟩

/-- C5, witness: a concrete missing route name. -/
theorem c5_witness :
    (getCustomRoute cfgRoutesEx "missing" []).url = "" ∧
    (getCustomRoute cfgRoutesEx "missing" []).reqType = RequestType.GET ∧
    (getCustomRoute cfgRoutesEx "missing" []).routeName = "" :=
  c5_missing_route_defaults cfgRoutesEx "missing" [] (by decide)

/-- C6: `generate` is resolution-only (a pure string computation — no
transport is involved in its definition): it returns "" when the
resolved route's url is "" — in particular for every unknown name — and
otherwise the resolved URL joined with the configured base URL by the
URL-join collaborator. -/
theorem c6_generate_resolution (cfg : Config) (name : String)
    (params : List (String × String)) :
    (jsLookup cfg.customRoutes name = none → generate cfg name params = "") ∧
    ((getCustomRoute cfg name params).url = "" → generate cfg name params = "") ∧
    ((getCustomRoute cfg name params).url ≠ "" →
      generate cfg name params
        = makeUrl [cfg.baseURL, (getCustomRoute cfg name params).url]) := by
  refine ⟨?_, ?_, ?_⟩
  · intro h
    have hu : (getCustomRoute cfg name params).url = "" := by
      unfold getCustomRoute
      rw [h]
      rfl
    simp [generate, hu]
  · intro hu
    simp [generate, hu]
  · intro hu
    simp [generate, hu]

/-- C6, witness: an unknown name generates "", a known one the joined
URL. -/
theorem c6_witness :
    generate cfgRoutesEx "missing" [] = "" ∧
    generate cfgRoutesEx "usersShow" [("id", "7")]
      = makeUrl [cfgRoutesEx.baseURL,
          (getCustomRoute cfgRoutesEx "usersShow" [("id", "7")]).url] :=
  ⟨(c6_generate_resolution cfgRoutesEx "missing" []).1 (by decide),
   (c6_generate_resolution cfgRoutesEx "usersShow" [("id", "7")]).2.2 (by decide)⟩

/-- C7: placeholder extraction returns the placeholder cores in order of
first appearance, one entry per occurrence (repeats included): the two
concrete shapes of the claim, the general compositional law putting a
leading placeholder's core first, and emptiness on brace-free
templates. -/
theorem c7_placeholder_extraction :
    urlParams "/users/\x7bid\x7d/posts/\x7bpostId\x7d" = ["id", "postId"] ∧
    urlParams "/x/\x7bid\x7d/\x7bid\x7d" = ["id", "id"] ∧
    (∀ a b n : String, n.data ≠ [] → (∀ c ∈ n.data, wordDotChar c = true) →
      (∀ c ∈ a.data, c ≠ '{') →
      urlParams (a ++ "\x7b" ++ n ++ "\x7d" ++ b) = n :: urlParams b) ∧
    (∀ t : String, (∀ c ∈ t.data, c ≠ '{') → urlParams t = []) := by
  refine ⟨by decide, by decide, ?_, ?_⟩
  · intro a b n hn hw ha
    exact urlParams_comp a b n hn hw ha
  · intro t h
    show (scanParams t.data).map (fun cs => String.mk cs) = []
    rw [scanParams_of_no_brace t.data h]
    rfl

/-- C7, witness: the compositional law and the empty case at concrete
templates. -/
theorem c7_witness :
    urlParams ("/u/" ++ "\x7b" ++ "id" ++ "\x7d" ++ "/r") = "id" :: urlParams "/r" ∧
    urlParams "/plain" = [] :=
  ⟨c7_placeholder_extraction.2.2.1 "/u/" "/r" "id" (by decide) (by decide) (by decide),
   c7_placeholder_extraction.2.2.2 "/plain" (by decide)⟩

/-- C8: resolving any URL template with the empty route-params map
returns the template unchanged — substitution with the empty map is the
identity on templates. -/
theorem c8_empty_params_identity (rawURL : String) :
    replaceURLParams rawURL [] = rawURL := by
  simp [replaceURLParams]

/-- C9: a verb invocation with positional args builds the request URL
from the pending params followed by the newly supplied ones and clears
the pending params before dispatch; moreover, any session handed back by
a built request has no pending params left, so a following build
consumes only its own arguments. -/
theorem c9_positional_params (cfg : Config) (co : Collaborators) (st : Session)
    (type type2 : String) (ps qs : List String) :
    buildRequest cfg co st type ps
      = request cfg co (resetURLParams st) type (makeUrl (st.urlParams ++ ps)) ∧
    (resetURLParams st).urlParams = [] ∧
    (∀ evs st1 out,
      buildRequest cfg co st type ps = RequestResult.returned evs st1 out →
      st1.urlParams = [] ∧
      buildRequest cfg co st1 type2 qs = request cfg co st1 type2 (makeUrl qs)) := by
  refine ⟨rfl, rfl, ?_⟩
  intro evs st1 out h
  have hurl : st1.urlParams = [] := by
    have hreq : request cfg co (resetURLParams st) type (makeUrl (st.urlParams ++ ps))
        = RequestResult.returned evs st1 out := h
    rcases request_returned_session cfg co (resetURLParams st) type
        (makeUrl (st.urlParams ++ ps)) evs st1 out hreq with h1 | h1
    · rw [h1]
      rfl
    · rw [h1]
      rfl
  refine ⟨hurl, ?_⟩
  have hfix : resetURLParams st1 = st1 := by
    cases st1 with
    | mk rd up =>
      simp only [Session.urlParams] at hurl
      rw [hurl]
      rfl
  show request cfg co (resetURLParams st1) type2 (makeUrl (st1.urlParams ++ qs))
      = request cfg co st1 type2 (makeUrl qs)
  rw [hfix, hurl]
  rfl

/-- C9, witness: the consumed-by-the-next-request clause at a concrete
completed request. -/
theorem c9_witness :
    ({ requestData := emptyRequestData, urlParams := [] } : Session).urlParams = [] ∧
    buildRequest cfgEx coEx { requestData := emptyRequestData, urlParams := [] } "POST" ["3"]
      = request cfgEx coEx { requestData := emptyRequestData, urlParams := [] } "POST"
          (makeUrl ["3"]) :=
  (c9_positional_params cfgEx coEx stPendingEx "GET" "POST" ["9"] ["3"]).2.2
    [Event.beforeHookEv "get" "7/9", Event.transportCallEv "get" "7/9",
      Event.resetDataEv, Event.resetURLEv, Event.afterHookEv "ok"]
    { requestData := emptyRequestData, urlParams := [] }
    (TransportOutcome.success "ok") rfl

/-- C10: in debug mode, after validation and the before hook, `request`
returns the injected fake-request result directly: the trace holds only
the before hook and the fake call (no transport call, no after or error
hook, no reset), and the session comes back unchanged. -/
theorem c10_debug_short_circuit (cfg : Config) (co : Collaborators) (st : Session)
    (type url : String)
    (hv : isAllowedRequestType (jsToLower type) cfg = true)
    (hd : cfg.debug = true) :
    request cfg co st type url
      = RequestResult.returned
          [Event.beforeHookEv (jsToLower type) url, Event.fakeCallEv (jsToLower type) url]
          st (co.fakeRequest (jsToLower type) url) := by
  simp [request, hv, hd]

/-- C10, witness: a concrete debug-mode request. -/
theorem c10_witness :
    request cfgDebugEx coEx initSession "GET" "/u"
      = RequestResult.returned
          [Event.beforeHookEv (jsToLower "GET") "/u", Event.fakeCallEv (jsToLower "GET") "/u"]
          initSession (coEx.fakeRequest (jsToLower "GET") "/u") :=
  c10_debug_short_circuit cfgDebugEx coEx initSession "GET" "/u" (by decide) rfl

end Rapid
